import Mathlib

/-!
Verification of the URL-extraction and GitHub-URL-inference core of the
`opu` command-line tool.  The JavaScript source is embedded shallowly:

* manifest field values become the inductive type `JsVal` (plain string,
  number, boolean, null, or an object exposing an optional `url` value);
* the per-field normalisation `getFromUrlProperty`, the extractor
  `findUrlsFromPackageJson`, the inferrer `detectGitHubUrls` and the
  choice-list builder `makeChoices` are translated statement by statement;
* the JavaScript regular expressions are implemented as explicit scanning
  functions over `List Char` with the same leftmost-match, lazy/greedy and
  line-terminator semantics used by the source patterns;
* a JavaScript `TypeError` escaping a function is modelled with
  `Except Unit`.
-/

/-- JavaScript line terminators, which `.` in a regular expression never
matches. -/
def lineTerm (c : Char) : Bool :=
  c = '\n' || c = '\r' || c = '\u2028' || c = '\u2029'

/-- Substring test matching JavaScript `String.prototype.includes`,
specialised to a fixed needle. -/
def listIncludes (needle : List Char) : List Char → Bool
  | [] => needle.isEmpty
  | c :: rest => needle.isPrefixOf (c :: rest) || listIncludes needle rest

/-- JavaScript `hay.includes(needle)`. -/
def jsIncludes (hay needle : String) : Bool :=
  listIncludes needle.data hay.data

/-- The replacement `url.replace(/(#.*|\.git$)/u, '')`: the leftmost match of
either alternative (a `#` followed by the greedy run of non-line-terminator
characters, or a literal `.git` at the end of the string) is removed; the
replacement is not global, so only that first match disappears. -/
def stripFragGitAux : List Char → List Char
  | [] => []
  | c :: rest =>
    if c = '#' then rest.dropWhile (fun d => !lineTerm d)
    else if c = '.' ∧ rest = ['g', 'i', 't'] then []
    else c :: stripFragGitAux rest

/-- String wrapper for `stripFragGitAux`. -/
def stripFragGit (s : String) : String :=
  String.mk (stripFragGitAux s.data)

/-- The replacement `url.replace(/^git\+/u, '')`. -/
def stripGitPlus (s : String) : String :=
  if ("git+").data.isPrefixOf s.data then String.mk (s.data.drop 4) else s

/-- Index of the last closing parenthesis in a list, if any. -/
def lastParenIdx : List Char → Option Nat
  | [] => none
  | c :: rest =>
    match lastParenIdx rest with
    | some j => some (j + 1)
    | none => if c = ')' then some 0 else none

/-- The author search `url.match(/\((http.*)\)/u)`: the leftmost `(` that is
immediately followed by `http` and has a closing `)` later on the same line;
the greedy `.*` makes the captured content run to the last such `)`. -/
def findParenUrl : List Char → Option (List Char)
  | [] => none
  | c :: rest =>
    if c = '(' ∧ ("http").data.isPrefixOf rest then
      match lastParenIdx (rest.takeWhile (fun d => !lineTerm d)) with
      | some j => some ((rest.takeWhile (fun d => !lineTerm d)).take j)
      | none => findParenUrl rest
    else findParenUrl rest

/-- A JavaScript value as it can appear under a manifest key: a plain string,
a number, a boolean, `null`, or an object whose `url` property (if present)
is again such a value. -/
inductive JsVal where
  | vStr : String → JsVal
  | vNum : Int → JsVal
  | vBool : Bool → JsVal
  | vNull : JsVal
  | vObj : Option JsVal → JsVal

/-- JavaScript truthiness of a `JsVal`. -/
def truthyJs : JsVal → Bool
  | .vStr s => s != ""
  | .vNum n => n != 0
  | .vBool b => b
  | .vNull => false
  | .vObj _ => true

/-- A parsed `package.json` restricted to the five keys the extractor reads;
`none` models an absent key. -/
structure PackageJson where
  homepage : Option JsVal := none
  author : Option JsVal := none
  repository : Option JsVal := none
  bugs : Option JsVal := none
  funding : Option JsVal := none

/-- The value of the expression
`(typeof packageJson[p] === 'string') ? packageJson[p] : packageJson[p]?.url`:
a plain string is taken verbatim, an object contributes its `url` property,
anything else (including absence) is `undefined`. -/
def rawUrlOf : Option JsVal → Option JsVal
  | some (.vStr s) => some (.vStr s)
  | some (.vObj u) => u
  | _ => none

/-- `getFromUrlProperty`: falsy values become `null`; a truthy string is
normalised with `stripFragGit`; calling `.replace` on a truthy non-string
value throws a `TypeError`, modelled as `Except.error`. -/
def getFromUrlProperty (field : Option JsVal) : Except Unit (Option String) :=
  match rawUrlOf field with
  | none => .ok none
  | some v =>
    if truthyJs v then
      match v with
      | .vStr s => .ok (some (stripFragGit s))
      | _ => .error ()
    else .ok none

/-- The record produced by the extractor: one normalised URL or `null` per
field, plus the externally merged git remote URL. -/
structure ExtractedUrls where
  homepage : Option String
  author : Option String
  repository : Option String
  bugs : Option String
  funding : Option String
  gitRemoteUrl : Option String := none
deriving DecidableEq

/-- The author branch of `findUrlsFromPackageJson`: a parenthesised `http`
substring of the normalised value wins, otherwise the value itself. -/
def authorFrom (p : PackageJson) : Except Unit (Option String) :=
  match getFromUrlProperty p.author with
  | .error e => .error e
  | .ok none => .ok none
  | .ok (some u) =>
    if u == "" then .ok none
    else
      match findParenUrl u.data with
      | some cap => .ok (some (String.mk cap))
      | none => .ok (some u)

/-- The repository branch of `findUrlsFromPackageJson`: a leading `git+` is
stripped from the normalised value. -/
def repositoryFrom (p : PackageJson) : Except Unit (Option String) :=
  match getFromUrlProperty p.repository with
  | .error e => .error e
  | .ok none => .ok none
  | .ok (some u) => if u == "" then .ok none else .ok (some (stripGitPlus u))

/-- `findUrlsFromPackageJson`: the five known fields are extracted in source
order; a thrown `TypeError` aborts the whole extraction. -/
def findUrlsFromPackageJson (p : PackageJson) : Except Unit ExtractedUrls :=
  match getFromUrlProperty p.homepage with
  | .error e => .error e
  | .ok homepage =>
  match authorFrom p with
  | .error e => .error e
  | .ok author =>
  match repositoryFrom p with
  | .error e => .error e
  | .ok repository =>
  match getFromUrlProperty p.bugs with
  | .error e => .error e
  | .ok bugs =>
  match getFromUrlProperty p.funding with
  | .error e => .error e
  | .ok funding =>
    .ok { homepage := homepage, author := author, repository := repository,
          bugs := bugs, funding := funding, gitRemoteUrl := none }

example : findUrlsFromPackageJson
    { repository := some (.vStr ("git+https://github.com/acme/widget.git")) }
  = .ok { homepage := none, author := none,
          repository := some ("https://github.com/acme/widget"),
          bugs := none, funding := none, gitRemoteUrl := none } := rfl

example : findUrlsFromPackageJson
    { author := some (.vStr ("Jane Doe (https://jane.dev)")) }
  = .ok { homepage := none, author := some ("https://jane.dev"),
          repository := none, bugs := none, funding := none,
          gitRemoteUrl := none } := rfl

example : stripFragGit ("https://github.com/acme/widget.git#readme")
  = "https://github.com/acme/widget.git" := by decide

/-- The literal `github.com/` anchoring both `github.com` patterns. -/
def githubComLit : List Char := ("github.com/").data

/-- The literal `.github.io` inside the Pages pattern. -/
def githubIoLit : List Char := (".github.io").data

/-- Lazy expansion of `(.*?)` followed by `(\/|\?|#|$)`: the length of the
shortest prefix ending at a delimiter or at the end of the string, `none` if
a line terminator intervenes first. -/
def findDelimPrefix : List Char → Option Nat
  | [] => some 0
  | c :: rest =>
    if c = '/' || c = '?' || c = '#' then some 0
    else if lineTerm c then none
    else (findDelimPrefix rest).map (· + 1)

/-- `url.match(/github\.com\/(.*?)(\/|\?|#|$)/u)`: capture group 1 at the
leftmost occurrence of `github.com/` from which the pattern completes. -/
def matchUser : List Char → Option (List Char)
  | [] => none
  | c :: rest =>
    if githubComLit.isPrefixOf (c :: rest) then
      match findDelimPrefix ((c :: rest).drop 11) with
      | some k => some (((c :: rest).drop 11).take k)
      | none => matchUser rest
    else matchUser rest

/-- The part of `/github\.com\/(.*?)\/(.*?)(\/|\?|#|$)/u` after the literal:
group 1 expands lazily to successive `/` characters until group 2 and the
delimiter complete; the returned value is capture group 2. -/
def repoTail : List Char → Option (List Char)
  | [] => none
  | c :: rest =>
    if c = '/' then
      match findDelimPrefix rest with
      | some k => some (rest.take k)
      | none => repoTail rest
    else if lineTerm c then none
    else repoTail rest

/-- `url.match(/github\.com\/(.*?)\/(.*?)(\/|\?|#|$)/u)`, returning capture
group 2 of the leftmost successful match. -/
def matchRepo : List Char → Option (List Char)
  | [] => none
  | c :: rest =>
    if githubComLit.isPrefixOf (c :: rest) then
      match repoTail ((c :: rest).drop 11) with
      | some g2 => some g2
      | none => matchRepo rest
    else matchRepo rest

/-- The optional group `(\/.*?)?` followed by `(\/|\?|#|$)`: tried greedily,
with the lazy `.*?` stopping at the first delimiter; if the group cannot
complete, it is dropped and the delimiter alone must match. -/
def matchPagesTail : List Char → Option (Option (List Char))
  | [] => some none
  | '/' :: rest =>
    match findDelimPrefix rest with
    | some k => some (some ('/' :: rest.take k))
    | none => some none
  | c :: _ => if c = '?' || c = '#' then some none else none

/-- Lazy expansion of `(.+?)` before `.github.io` in the Pages pattern: the
subdomain grows one character at a time until the literal and the tail of the
pattern both match. -/
def tryG1 (acc : List Char) : List Char → Option (List Char × Option (List Char))
  | [] => none
  | c :: rest =>
    if lineTerm c then none
    else if githubIoLit.isPrefixOf rest then
      match matchPagesTail (rest.drop 10) with
      | some g2 => some ((c :: acc).reverse, g2)
      | none => tryG1 (c :: acc) rest
    else tryG1 (c :: acc) rest

/-- `url.match(/:\/\/(.+?)\.github\.io(\/.*?)?(\/|\?|#|$)/u)`: capture
groups 1 and 2 of the leftmost successful match. -/
def pagesMatch : List Char → Option (List Char × Option (List Char))
  | ':' :: '/' :: '/' :: r =>
    match tryG1 [] r with
    | some res => some res
    | none => pagesMatch ('/' :: '/' :: r)
  | _ :: rest => pagesMatch rest
  | [] => none

/-- `path.replace(/^\//u, '')`: one leading slash is removed. -/
def dropLeadingSlash : List Char → List Char
  | c :: rest => if c = '/' then rest else c :: rest
  | [] => []

/-- The mutable bindings of `detectGitHubUrls` while the URLs are scanned. -/
structure ScanState where
  userName : Option String
  repositoryName : Option String
  hasGitHubPages : Bool
  gitHubPagesUrl : Option String
deriving DecidableEq

/-- JavaScript truthiness of a nullable string. -/
def truthyOpt : Option String → Bool
  | some s => s != ""
  | none => false

/-- JavaScript string conversion of a nullable string, as performed by
template literals and `+`. -/
def jsStrOfOpt : Option String → String
  | some s => s
  | none => "null"

/-- The `userName` update of the `github.com` branch. -/
def setUser (st : ScanState) (u : String) : ScanState :=
  if truthyOpt st.userName then st
  else
    match matchUser u.data with
    | some cap =>
      if String.mk cap != "" then { st with userName := some (String.mk cap) } else st
    | none => st

/-- The `repositoryName` update of the `github.com` branch. -/
def setRepo (st : ScanState) (u : String) : ScanState :=
  if truthyOpt st.repositoryName then st
  else
    match matchRepo u.data with
    | some cap =>
      if String.mk cap != "" then { st with repositoryName := some (String.mk cap) } else st
    | none => st

/-- The whole `github.com` branch of the scan. -/
def scanCom (st : ScanState) (u : String) : ScanState :=
  setRepo (setUser st u) u

/-- The `if(gitHubPagesUrlMatch[1])` block: the Pages URL is rebuilt from the
subdomain and `userName` adopts it when unset. -/
def pagesApply1 (st : ScanState) (g1 : List Char) : ScanState :=
  if String.mk g1 != "" then
    { st with
      gitHubPagesUrl := some (("https://" ++ String.mk g1) ++ (".github.io")),
      userName := if truthyOpt st.userName then st.userName else some (String.mk g1) }
  else st

/-- The repository-site sub-branch: the path is appended to the Pages URL and
adopted as `repositoryName` when it contains no period. -/
def pagesApplyPath (st : ScanState) (p2 : List Char) : ScanState :=
  if truthyOpt st.repositoryName then st
  else if (dropLeadingSlash p2).contains '.' then st
  else { st with repositoryName := some (String.mk (dropLeadingSlash p2)) }

/-- The user-site sub-branch: `repositoryName` becomes `sub.github.io` when
unset. -/
def pagesUserSite (st : ScanState) (g1 : List Char) : ScanState :=
  if truthyOpt st.repositoryName then st
  else { st with repositoryName := some (String.mk g1 ++ (".github.io")) }

/-- Dispatch on capture group 2 of the Pages pattern, mirroring the
`if … else if …` chain of the source. -/
def pagesApply2 (st : ScanState) (g1 : List Char) (g2 : Option (List Char)) : ScanState :=
  match g2 with
  | some p2 =>
    if 1 < p2.length then
      pagesApplyPath
        { st with gitHubPagesUrl := some (jsStrOfOpt st.gitHubPagesUrl ++ String.mk p2) } p2
    else if p2.length = 1 then pagesUserSite st g1
    else st
  | none => pagesUserSite st g1

/-- The whole `github.io` branch: `hasGitHubPages` is set before the URL is
parsed, and a failed parse leaves everything else unchanged. -/
def scanPages (st : ScanState) (u : String) : ScanState :=
  match pagesMatch u.data with
  | none => { st with hasGitHubPages := true }
  | some (g1, g2) => pagesApply2 (pagesApply1 { st with hasGitHubPages := true } g1) g1 g2

/-- The body of the `Object.values(urls).forEach` loop. -/
def scanUrl (st : ScanState) (u : Option String) : ScanState :=
  match u with
  | none => st
  | some s =>
    if s == "" then st
    else if jsIncludes s ("github.com") then scanCom st s
    else if jsIncludes s ("github.io") && !truthyOpt st.gitHubPagesUrl then scanPages st s
    else st

/-- The result record of `detectGitHubUrls`. -/
structure GitHubUrlInference where
  userName : Option String
  repositoryName : Option String
  gitHubUserUrl : Option String
  gitHubRepositoryUrl : Option String
  hasGitHubPages : Bool
  gitHubPagesUrl : Option String
deriving DecidableEq

/-- The values of the URL record in `Object.values` order. -/
def urlValues (urls : ExtractedUrls) : List (Option String) :=
  [urls.homepage, urls.author, urls.repository, urls.bugs, urls.funding, urls.gitRemoteUrl]

/-- `detectGitHubUrls`: scan every URL, then derive the user, repository and
(possibly synthesized) Pages URLs. -/
def detectGitHubUrls (urls : ExtractedUrls) : GitHubUrlInference :=
  let st := (urlValues urls).foldl scanUrl
    { userName := none, repositoryName := none, hasGitHubPages := false, gitHubPagesUrl := none }
  { userName := st.userName
    repositoryName := st.repositoryName
    gitHubUserUrl :=
      match st.userName with
      | some u => if u == "" then none else some ("https://github.com/" ++ u)
      | none => none
    gitHubRepositoryUrl :=
      match st.userName, st.repositoryName with
      | some u, some r =>
        if u == "" || r == "" then none
        else some ((("https://github.com/" ++ u) ++ "/") ++ r)
      | _, _ => none
    hasGitHubPages := st.hasGitHubPages
    gitHubPagesUrl :=
      if truthyOpt st.gitHubPagesUrl then st.gitHubPagesUrl
      else
        match st.userName with
        | some u =>
          if u == "" then st.gitHubPagesUrl
          else some ((("https://" ++ u) ++ (".github.io")) ++
            (match st.repositoryName with
             | some r => if r == "" then "" else "/" ++ r
             | none => ""))
        | none => st.gitHubPagesUrl }

example : detectGitHubUrls
    { homepage := some ("https://acme.github.io/widget/"), author := none,
      repository := none, bugs := none, funding := none, gitRemoteUrl := none }
  = { userName := some ("acme"), repositoryName := some ("widget"),
      gitHubUserUrl := some ("https://github.com/acme"),
      gitHubRepositoryUrl := some ("https://github.com/acme/widget"),
      hasGitHubPages := true,
      gitHubPagesUrl := some ("https://acme.github.io/widget") } := by decide

example : detectGitHubUrls
    { homepage := some ("github.io"), author := none, repository := none,
      bugs := none, funding := none, gitRemoteUrl := none }
  = { userName := none, repositoryName := none, gitHubUserUrl := none,
      gitHubRepositoryUrl := none, hasGitHubPages := true,
      gitHubPagesUrl := none } := by decide

example : detectGitHubUrls
    { homepage := some ("https://github.com/acme"), author := none,
      repository := some ("https://github.com/other/widget"),
      bugs := none, funding := none, gitRemoteUrl := none }
  = { userName := some ("acme"), repositoryName := some ("widget"),
      gitHubUserUrl := some ("https://github.com/acme"),
      gitHubRepositoryUrl := some ("https://github.com/acme/widget"),
      hasGitHubPages := false,
      gitHubPagesUrl := some ("https://acme.github.io/widget") } := by decide

example : detectGitHubUrls
    { homepage := some ("https://github.com/acme/widget#readme"), author := none,
      repository := none, bugs := none, funding := none, gitRemoteUrl := none }
  = { userName := some ("acme"), repositoryName := some ("widget"),
      gitHubUserUrl := some ("https://github.com/acme"),
      gitHubRepositoryUrl := some ("https://github.com/acme/widget"),
      hasGitHubPages := false,
      gitHubPagesUrl := some ("https://acme.github.io/widget") } := by decide

/-- One entry of the selection list: a display label and the URL it opens,
with `none` modelling the `false` sentinel of the cancel entry. -/
structure Choice where
  name : String
  value : Option String
deriving DecidableEq

/-- A label of the form produced by the template literals of `makeChoices`:
the 1-indexed position in brackets, two spaces, then the body. -/
def numberLabel (n : Nat) (body : String) : String :=
  (("[" ++ toString n) ++ "]  ") ++ body

/-- One conditional `choices.push(...)` statement: when the condition is
truthy, an entry numbered `choices.length + 1` is appended. -/
def pushChoice (cond : Bool) (body : String) (value : Option String)
    (cs : List Choice) : List Choice :=
  if cond then cs ++ [{ name := numberLabel (cs.length + 1) body, value := value }] else cs

/-- Label body of the inferred repository entry. -/
def repoBody (g : GitHubUrlInference) : String :=
  ((((jsStrOfOpt g.gitHubRepositoryUrl ++ (" ... GitHub Repository Page (")) ++
    jsStrOfOpt g.userName) ++ "/") ++ jsStrOfOpt g.repositoryName) ++ ")"

/-- Label body of the inferred user entry. -/
def userBody (g : GitHubUrlInference) : String :=
  ((jsStrOfOpt g.gitHubUserUrl ++ (" ... GitHub User Page (")) ++
    jsStrOfOpt g.userName) ++ ")"

/-- Label body of the inferred Pages entry, flagged when the Pages site was
never directly observed. -/
def pagesBody (g : GitHubUrlInference) : String :=
  (jsStrOfOpt g.gitHubPagesUrl ++ (" ... GitHub Pages")) ++
    (if g.hasGitHubPages then "" else " (Maybe Not Found)")

/-- Label body of an extracted-URL entry, distinguishing the git remote URL
from the manifest fields. -/
def fieldBody (kv : String × Option String) : String :=
  if kv.1 == "gitRemoteUrl" then jsStrOfOpt kv.2 ++ (" ... Git Remote URL")
  else (jsStrOfOpt kv.2 ++ (" ... package.json ")) ++ kv.1

/-- The key/value pairs of the URL record in `Object.keys` order. -/
def fieldsOf (urls : ExtractedUrls) : List (String × Option String) :=
  [("homepage", urls.homepage), ("author", urls.author),
   ("repository", urls.repository), ("bugs", urls.bugs),
   ("funding", urls.funding), ("gitRemoteUrl", urls.gitRemoteUrl)]

/-- `makeChoices`: three conditional pushes for the inferred URLs, one pass
over the URL record, and a cancel entry when anything was pushed. -/
def makeChoices (urls : ExtractedUrls) (g : GitHubUrlInference) : List Choice :=
  let c1 := pushChoice (truthyOpt g.gitHubRepositoryUrl) (repoBody g) g.gitHubRepositoryUrl []
  let c2 := pushChoice (truthyOpt g.gitHubUserUrl) (userBody g) g.gitHubUserUrl c1
  let c3 := pushChoice (truthyOpt g.gitHubPagesUrl) (pagesBody g) g.gitHubPagesUrl c2
  let c4 := (fieldsOf urls).foldl
    (fun cs kv => pushChoice (truthyOpt kv.2) (fieldBody kv) kv.2 cs) c3
  pushChoice (decide (0 < c4.length)) ("Cancel") none c4

/-- Number a list of (label body, value) items with consecutive 1-indexed
positions starting at `n`. -/
def numberFrom (n : Nat) : List (String × Option String) → List Choice
  | [] => []
  | it :: rest => { name := numberLabel n it.1, value := it.2 } :: numberFrom (n + 1) rest

/-- The entries the specification promises, in its stated order: inferred
repository, user and Pages URLs when present and non-empty, then every
truthy extracted URL in field-iteration order. -/
def specItems (urls : ExtractedUrls) (g : GitHubUrlInference) :
    List (String × Option String) :=
  (if truthyOpt g.gitHubRepositoryUrl then [(repoBody g, g.gitHubRepositoryUrl)] else []) ++
  (if truthyOpt g.gitHubUserUrl then [(userBody g, g.gitHubUserUrl)] else []) ++
  (if truthyOpt g.gitHubPagesUrl then [(pagesBody g, g.gitHubPagesUrl)] else []) ++
  (fieldsOf urls).filterMap
    (fun kv => if truthyOpt kv.2 then some (fieldBody kv, kv.2) else none)

/-- The choice list exactly as the specification describes it: the promised
entries numbered by final 1-indexed position, a cancel entry appended only
when at least one real entry exists. -/
def makeChoicesSpec (urls : ExtractedUrls) (g : GitHubUrlInference) : List Choice :=
  let base := specItems urls g
  if 0 < base.length then
    numberFrom 1 base ++ [{ name := numberLabel (base.length + 1) ("Cancel"), value := none }]
  else []

example : makeChoices
    { homepage := none, author := none, repository := some (""), bugs := none,
      funding := none, gitRemoteUrl := none }
    { userName := none, repositoryName := none, gitHubUserUrl := none,
      gitHubRepositoryUrl := none, hasGitHubPages := false, gitHubPagesUrl := none }
  = [] := by decide

example : makeChoices
    { homepage := some ("https://h"), author := none, repository := none,
      bugs := none, funding := none, gitRemoteUrl := some ("https://r") }
    { userName := some ("acme"), repositoryName := none,
      gitHubUserUrl := some ("https://github.com/acme"),
      gitHubRepositoryUrl := none, hasGitHubPages := false,
      gitHubPagesUrl := some ("https://acme.github.io") }
  = [{ name := "[1]  https://github.com/acme ... GitHub User Page (acme)",
       value := some ("https://github.com/acme") },
     { name := "[2]  https://acme.github.io ... GitHub Pages (Maybe Not Found)",
       value := some ("https://acme.github.io") },
     { name := "[3]  https://h ... package.json homepage",
       value := some ("https://h") },
     { name := "[4]  https://r ... Git Remote URL", value := some ("https://r") },
     { name := "[5]  Cancel", value := none }] := by decide

example : makeChoicesSpec
    { homepage := some ("https://h"), author := none, repository := none,
      bugs := none, funding := none, gitRemoteUrl := some ("https://r") }
    { userName := some ("acme"), repositoryName := none,
      gitHubUserUrl := some ("https://github.com/acme"),
      gitHubRepositoryUrl := none, hasGitHubPages := false,
      gitHubPagesUrl := some ("https://acme.github.io") }
  = [{ name := "[1]  https://github.com/acme ... GitHub User Page (acme)",
       value := some ("https://github.com/acme") },
     { name := "[2]  https://acme.github.io ... GitHub Pages (Maybe Not Found)",
       value := some ("https://acme.github.io") },
     { name := "[3]  https://h ... package.json homepage",
       value := some ("https://h") },
     { name := "[4]  https://r ... Git Remote URL", value := some ("https://r") },
     { name := "[5]  Cancel", value := none }] := by decide

lemma numberFrom_append (a b : List (String × Option String)) (n : Nat) :
    numberFrom n (a ++ b) = numberFrom n a ++ numberFrom (n + a.length) b := by
  induction a generalizing n with
  | nil => simp [numberFrom]
  | cons x xs ih =>
    have h : n + 1 + xs.length = n + (xs.length + 1) := by omega
    calc numberFrom n ((x :: xs) ++ b)
        = { name := numberLabel n x.1, value := x.2 } :: numberFrom (n + 1) (xs ++ b) := rfl
      _ = { name := numberLabel n x.1, value := x.2 } ::
            (numberFrom (n + 1) xs ++ numberFrom (n + 1 + xs.length) b) := by rw [ih]
      _ = numberFrom n (x :: xs) ++ numberFrom (n + (x :: xs).length) b := by
            rw [h]; rfl

lemma numberFrom_length (n : Nat) (l : List (String × Option String)) :
    (numberFrom n l).length = l.length := by
  induction l generalizing n with
  | nil => rfl
  | cons x xs ih => simp [numberFrom, ih]

lemma pushChoice_eq (c : Bool) (b : String) (v : Option String) (cs : List Choice) :
    pushChoice c b v cs
      = cs ++ numberFrom (cs.length + 1) (if c then [(b, v)] else []) := by
  cases c <;> simp [pushChoice, numberFrom]

lemma foldl_push (l : List (String × Option String)) (cs : List Choice) :
    l.foldl (fun cs kv => pushChoice (truthyOpt kv.2) (fieldBody kv) kv.2 cs) cs
      = cs ++ numberFrom (cs.length + 1)
          (l.filterMap (fun kv => if truthyOpt kv.2 then some (fieldBody kv, kv.2) else none)) := by
  induction l generalizing cs with
  | nil => simp [numberFrom]
  | cons kv rest ih =>
    cases h : truthyOpt kv.2 with
    | false =>
      simp only [List.foldl_cons, List.filterMap_cons, h]
      have hp : pushChoice false (fieldBody kv) kv.2 cs = cs := rfl
      rw [hp, ih]
      simp
    | true =>
      simp only [List.foldl_cons, List.filterMap_cons, h]
      have hp : pushChoice true (fieldBody kv) kv.2 cs
          = cs ++ [{ name := numberLabel (cs.length + 1) (fieldBody kv), value := kv.2 }] := rfl
      rw [hp, ih]
      simp [numberFrom, List.append_assoc]

lemma numberFrom_push (c : Bool) (b : String) (v : Option String)
    (a : List (String × Option String)) :
    pushChoice c b v (numberFrom 1 a)
      = numberFrom 1 (a ++ (if c then [(b, v)] else [])) := by
  rw [pushChoice_eq, numberFrom_append, numberFrom_length, Nat.add_comm a.length 1]

lemma numberFrom_foldl (a l : List (String × Option String)) :
    l.foldl (fun cs kv => pushChoice (truthyOpt kv.2) (fieldBody kv) kv.2 cs) (numberFrom 1 a)
      = numberFrom 1 (a ++
          l.filterMap (fun kv => if truthyOpt kv.2 then some (fieldBody kv, kv.2) else none)) := by
  rw [foldl_push, numberFrom_append, numberFrom_length, Nat.add_comm a.length 1]

lemma cancel_step (S : List (String × Option String)) :
    pushChoice (decide (0 < (numberFrom 1 S).length)) ("Cancel") none (numberFrom 1 S)
      = if 0 < S.length then
          numberFrom 1 S ++ [{ name := numberLabel (S.length + 1) ("Cancel"), value := none }]
        else [] := by
  rw [pushChoice_eq, numberFrom_length]
  by_cases h : 0 < S.length
  · simp [h, numberFrom]
  · have hnil : S = [] := List.length_eq_zero.mp (by omega)
    subst hnil
    simp [numberFrom]

lemma pushRepo_base (g : GitHubUrlInference) :
    pushChoice (truthyOpt g.gitHubRepositoryUrl) (repoBody g) g.gitHubRepositoryUrl []
      = numberFrom 1
          (if truthyOpt g.gitHubRepositoryUrl then [(repoBody g, g.gitHubRepositoryUrl)] else []) := by
  have h0 : ([] : List Choice) = numberFrom 1 [] := rfl
  rw [h0, numberFrom_push]
  simp

/-- A URL value that enters the `github.io` branch of the scan: truthy, not
containing `github.com`, containing `github.io`. -/
def pagesTrigger : Option String → Bool
  | some s => s != "" && !jsIncludes s ("github.com") && jsIncludes s ("github.io")
  | none => false

lemma setUser_has (st : ScanState) (u : String) :
    (setUser st u).hasGitHubPages = st.hasGitHubPages := by
  unfold setUser; repeat' split
  all_goals rfl

lemma setUser_pagesUrl (st : ScanState) (u : String) :
    (setUser st u).gitHubPagesUrl = st.gitHubPagesUrl := by
  unfold setUser; repeat' split
  all_goals rfl

lemma setRepo_has (st : ScanState) (u : String) :
    (setRepo st u).hasGitHubPages = st.hasGitHubPages := by
  unfold setRepo; repeat' split
  all_goals rfl

lemma setRepo_pagesUrl (st : ScanState) (u : String) :
    (setRepo st u).gitHubPagesUrl = st.gitHubPagesUrl := by
  unfold setRepo; repeat' split
  all_goals rfl

lemma scanCom_has (st : ScanState) (u : String) :
    (scanCom st u).hasGitHubPages = st.hasGitHubPages := by
  unfold scanCom; rw [setRepo_has, setUser_has]

lemma scanCom_pagesUrl (st : ScanState) (u : String) :
    (scanCom st u).gitHubPagesUrl = st.gitHubPagesUrl := by
  unfold scanCom; rw [setRepo_pagesUrl, setUser_pagesUrl]

lemma pagesApply1_has (st : ScanState) (g1 : List Char) :
    (pagesApply1 st g1).hasGitHubPages = st.hasGitHubPages := by
  unfold pagesApply1; repeat' split
  all_goals rfl

lemma pagesApplyPath_has (st : ScanState) (p2 : List Char) :
    (pagesApplyPath st p2).hasGitHubPages = st.hasGitHubPages := by
  unfold pagesApplyPath; repeat' split
  all_goals rfl

lemma pagesUserSite_has (st : ScanState) (g1 : List Char) :
    (pagesUserSite st g1).hasGitHubPages = st.hasGitHubPages := by
  unfold pagesUserSite; repeat' split
  all_goals rfl

lemma pagesApply2_has (st : ScanState) (g1 : List Char) (g2 : Option (List Char)) :
    (pagesApply2 st g1 g2).hasGitHubPages = st.hasGitHubPages := by
  unfold pagesApply2
  repeat' split
  all_goals first
    | rfl
    | rw [pagesApplyPath_has]
    | rw [pagesUserSite_has]

lemma scanPages_has (st : ScanState) (u : String) :
    (scanPages st u).hasGitHubPages = true := by
  unfold scanPages
  split
  · rfl
  · rw [pagesApply2_has, pagesApply1_has]

lemma foldl_scan_has (l : List (Option String)) (st : ScanState)
    (hinv : truthyOpt st.gitHubPagesUrl = true → st.hasGitHubPages = true) :
    (l.foldl scanUrl st).hasGitHubPages = (st.hasGitHubPages || l.any pagesTrigger) := by
  induction l generalizing st with
  | nil => simp
  | cons u rest ih =>
    rw [List.foldl_cons, List.any_cons]
    cases u with
    | none =>
      have h1 : scanUrl st none = st := rfl
      rw [h1, ih st hinv]
      simp [pagesTrigger]
    | some s =>
      by_cases hs : s == ""
      · have h1 : scanUrl st (some s) = st := by
          simp only [scanUrl]; rw [if_pos hs]
        have ht : pagesTrigger (some s) = false := by
          simp only [pagesTrigger, bne, hs]
          simp
        rw [h1, ih st hinv, ht]
        simp
      · by_cases hcom : jsIncludes s ("github.com")
        · have h1 : scanUrl st (some s) = scanCom st s := by
            simp only [scanUrl]; rw [if_neg hs, if_pos hcom]
          have ht : pagesTrigger (some s) = false := by
            simp [pagesTrigger, hcom]
          have hinv2 : truthyOpt (scanCom st s).gitHubPagesUrl = true →
              (scanCom st s).hasGitHubPages = true := by
            rw [scanCom_pagesUrl, scanCom_has]; exact hinv
          rw [h1, ih (scanCom st s) hinv2, scanCom_has, ht]
          simp
        · by_cases hio : jsIncludes s ("github.io")
          · have ht : pagesTrigger (some s) = true := by
              simp only [pagesTrigger, bne, hcom, hio]
              simp [hs]
            by_cases hp : truthyOpt st.gitHubPagesUrl
            · have h1 : scanUrl st (some s) = st := by
                simp only [scanUrl]
                rw [if_neg hs, if_neg hcom, if_neg]
                simp [hio, hp]
              have hhas : st.hasGitHubPages = true := hinv hp
              rw [h1, ih st hinv, ht, hhas]
              simp
            · have h1 : scanUrl st (some s) = scanPages st s := by
                simp only [scanUrl]
                rw [if_neg hs, if_neg hcom, if_pos]
                simp only [hio, Bool.true_and, Bool.not_eq_true]
                simp at hp
                simp [hp]
              have hinv2 : truthyOpt (scanPages st s).gitHubPagesUrl = true →
                  (scanPages st s).hasGitHubPages = true := by
                intro
                exact scanPages_has st s
              rw [h1, ih (scanPages st s) hinv2, scanPages_has, ht]
              simp
          · have h1 : scanUrl st (some s) = st := by
              simp only [scanUrl]
              rw [if_neg hs, if_neg hcom, if_neg]
              simp [hio]
            have ht : pagesTrigger (some s) = false := by
              simp [pagesTrigger, hio]
            rw [h1, ih st hinv, ht]
            simp

/-- During the scan neither name is ever the empty string: `userName` and
`repositoryName` are either unset or non-empty. -/
def namesOk (st : ScanState) : Prop :=
  st.userName ≠ some "" ∧ st.repositoryName ≠ some ""

lemma some_mk_ne_some_empty {l : List Char} (hg : (String.mk l != "") = true) :
    some (String.mk l) ≠ some "" := by
  intro heq
  rw [Option.some.injEq] at heq
  rw [heq] at hg
  simp at hg

lemma dropLeadingSlash_ne_nil (l : List Char) (h : 1 < l.length) :
    dropLeadingSlash l ≠ [] := by
  cases l with
  | nil => simp at h
  | cons c rest =>
    simp only [dropLeadingSlash]
    split
    · simp only [List.length_cons] at h
      exact List.ne_nil_of_length_pos (by omega)
    · simp

lemma append_githubIo_ne_empty (s : String) : s ++ (".github.io") ≠ "" := by
  intro h
  have hlen := congrArg String.length h
  simp [String.length_append] at hlen
  exact absurd hlen.2 (by decide)

lemma setUser_namesOk (st : ScanState) (u : String) (h : namesOk st) :
    namesOk (setUser st u) := by
  unfold namesOk setUser at *
  split
  · exact h
  · split
    · split
      · rename_i cap heq hg
        exact ⟨some_mk_ne_some_empty hg, h.2⟩
      · exact h
    · exact h

lemma setRepo_namesOk (st : ScanState) (u : String) (h : namesOk st) :
    namesOk (setRepo st u) := by
  unfold namesOk setRepo at *
  split
  · exact h
  · split
    · split
      · rename_i cap heq hg
        exact ⟨h.1, some_mk_ne_some_empty hg⟩
      · exact h
    · exact h

lemma scanCom_namesOk (st : ScanState) (u : String) (h : namesOk st) :
    namesOk (scanCom st u) :=
  setRepo_namesOk _ _ (setUser_namesOk _ _ h)

lemma pagesApply1_namesOk (st : ScanState) (g1 : List Char) (h : namesOk st) :
    namesOk (pagesApply1 st g1) := by
  unfold namesOk pagesApply1 at *
  split
  · rename_i hg
    refine ⟨?_, h.2⟩
    split
    · exact h.1
    · exact some_mk_ne_some_empty hg
  · exact h

lemma pagesApplyPath_namesOk (st : ScanState) (p2 : List Char) (hlen : 1 < p2.length)
    (h : namesOk st) : namesOk (pagesApplyPath st p2) := by
  unfold namesOk pagesApplyPath at *
  split
  · exact h
  · split
    · exact h
    · refine ⟨h.1, ?_⟩
      intro heq
      rw [Option.some.injEq] at heq
      exact dropLeadingSlash_ne_nil p2 hlen (by
        have := congrArg String.data heq
        simpa using this)

lemma pagesUserSite_namesOk (st : ScanState) (g1 : List Char) (h : namesOk st) :
    namesOk (pagesUserSite st g1) := by
  unfold namesOk pagesUserSite at *
  split
  · exact h
  · refine ⟨h.1, ?_⟩
    intro heq
    rw [Option.some.injEq] at heq
    exact append_githubIo_ne_empty _ heq

lemma pagesApply2_namesOk (st : ScanState) (g1 : List Char) (g2 : Option (List Char))
    (h : namesOk st) : namesOk (pagesApply2 st g1 g2) := by
  unfold pagesApply2
  split
  · split
    · rename_i p2 hlen
      refine pagesApplyPath_namesOk _ _ hlen ?_
      unfold namesOk at *
      exact h
    · split
      · exact pagesUserSite_namesOk _ _ h
      · exact h
  · exact pagesUserSite_namesOk _ _ h

lemma scanPages_namesOk (st : ScanState) (u : String) (h : namesOk st) :
    namesOk (scanPages st u) := by
  unfold scanPages
  split
  · exact h
  · refine pagesApply2_namesOk _ _ _ (pagesApply1_namesOk _ _ ?_)
    exact h

lemma scanUrl_namesOk (st : ScanState) (u : Option String) (h : namesOk st) :
    namesOk (scanUrl st u) := by
  cases u with
  | none => exact h
  | some s =>
    simp only [scanUrl]
    split
    · exact h
    · split
      · exact scanCom_namesOk _ _ h
      · split
        · exact scanPages_namesOk _ _ h
        · exact h

lemma foldl_scan_namesOk (l : List (Option String)) (st : ScanState) (h : namesOk st) :
    namesOk (l.foldl scanUrl st) := by
  induction l generalizing st with
  | nil => exact h
  | cons u rest ih => exact ih _ (scanUrl_namesOk st u h)

lemma stripFragGit_first_only (l : List Char) (h : ∀ c ∈ l, lineTerm c = false) :
    stripFragGitAux l =
      if ('#') ∈ l then l.takeWhile (fun c => c != '#')
      else if ['.', 'g', 'i', 't'] <:+ l then l.take (l.length - 4)
      else l := by
  induction l with
  | nil => simp [stripFragGitAux]
  | cons c rest ih =>
    have hrest : ∀ x ∈ rest, lineTerm x = false :=
      fun x hx => h x (List.mem_cons_of_mem c hx)
    by_cases hc : c = '#'
    · subst hc
      have hdrop : rest.dropWhile (fun d => !lineTerm d) = [] := by
        rw [List.dropWhile_eq_nil_iff]
        intro x hx
        simp [hrest x hx]
      simp [stripFragGitAux, hdrop, List.takeWhile_cons]
    · by_cases hdotgit : c = '.' ∧ rest = ['g', 'i', 't']
      · obtain ⟨hc1, hc2⟩ := hdotgit
        subst hc1; subst hc2
        decide
      · have heq : stripFragGitAux (c :: rest) = c :: stripFragGitAux rest := by
          simp only [stripFragGitAux]
          rw [if_neg hc, if_neg hdotgit]
        rw [heq, ih hrest]
        by_cases hmem : ('#') ∈ rest
        · have hmem2 : ('#') ∈ c :: rest := List.mem_cons_of_mem c hmem
          rw [if_pos hmem, if_pos hmem2, List.takeWhile_cons, if_pos (by simp [hc])]
        · have hmem2 : ('#') ∉ c :: rest := by
            intro hx
            rcases List.mem_cons.mp hx with hx1 | hx2
            · exact hc hx1.symm
            · exact hmem hx2
          rw [if_neg hmem, if_neg hmem2]
          by_cases hsuf : ['.', 'g', 'i', 't'] <:+ rest
          · have hsuf2 : ['.', 'g', 'i', 't'] <:+ c :: rest :=
              hsuf.trans (List.suffix_cons c rest)
            rw [if_pos hsuf, if_pos hsuf2]
            have h4 : 4 ≤ rest.length := by simpa using hsuf.length_le
            simp only [List.length_cons]
            rw [show rest.length + 1 - 4 = (rest.length - 4) + 1 by omega]
            rfl
          · have hsuf2 : ¬(['.', 'g', 'i', 't'] <:+ c :: rest) := by
              intro hx
              rcases List.suffix_cons_iff.mp hx with heq2 | hsuf3
              · apply hdotgit
                have h2 := heq2.symm
                injection h2 with ha hb
                exact ⟨ha, hb⟩
              · exact hsuf hsuf3
            rw [if_neg hsuf, if_neg hsuf2]

/-! Concrete inputs used by the claim theorems below. -/

/-- Manifest whose only known field is the Pages homepage of claim C1. -/
def pagesPackage : PackageJson :=
  { homepage := some (JsVal.vStr ("https://acme.github.io/widget/")) }

/-- The extraction result for `pagesPackage`. -/
def pagesUrls : ExtractedUrls :=
  { homepage := some ("https://acme.github.io/widget/"), author := none,
    repository := none, bugs := none, funding := none, gitRemoteUrl := none }

/-- Claim C1, counterexample: for the manifest with only
homepage `https://acme.github.io/widget/`, the inferred `gitHubPagesUrl` is
`https://acme.github.io/widget` without the trailing slash, because the lazy
path capture of the Pages pattern stops before the final `/`; the claimed
value with the trailing slash is therefore wrong. -/
theorem c1_counterexample :
    findUrlsFromPackageJson pagesPackage = Except.ok pagesUrls ∧
    (detectGitHubUrls pagesUrls).gitHubPagesUrl = some ("https://acme.github.io/widget") ∧
    some ("https://acme.github.io/widget") ≠
      some (("https://acme.github.io/widget/" : String)) :=
  ⟨rfl, rfl, by decide⟩

/-- Claim C1, amended: for a manifest whose only known field is
homepage `https://acme.github.io/widget/`, extraction followed by inference
yields userName `acme`, repositoryName `widget`, hasGitHubPages true,
gitHubPagesUrl `https://acme.github.io/widget` (trailing slash dropped by the
lazy path capture) and gitHubRepositoryUrl `https://github.com/acme/widget`. -/
theorem c1_theorem :
    findUrlsFromPackageJson pagesPackage = Except.ok pagesUrls ∧
    detectGitHubUrls pagesUrls =
      { userName := some ("acme"), repositoryName := some ("widget"),
        gitHubUserUrl := some ("https://github.com/acme"),
        gitHubRepositoryUrl := some ("https://github.com/acme/widget"),
        hasGitHubPages := true,
        gitHubPagesUrl := some ("https://acme.github.io/widget") } :=
  ⟨rfl, by decide⟩

/-- URL mapping whose only entry is the bare string `github.io`. -/
def bareIoUrls : ExtractedUrls :=
  { homepage := some ("github.io"), author := none, repository := none,
    bugs := none, funding := none, gitRemoteUrl := none }

/-- Claim C2, counterexample: the URL `github.io` contains `github.io` but
does not parse with the `://sub.github.io` pattern, so the scan sets
`hasGitHubPages` to true while `gitHubPagesUrl` stays null, contradicting the
claim that the flag is true only when the Pages URL was set from an observed
URL. -/
theorem c2_counterexample :
    (detectGitHubUrls bareIoUrls).hasGitHubPages = true ∧
    (detectGitHubUrls bareIoUrls).gitHubPagesUrl = none :=
  ⟨rfl, rfl⟩

/-- Claim C2, amended: `hasGitHubPages` is true exactly when some truthy URL
of the mapping contains `github.io` without containing `github.com`; the flag
does not guarantee that `gitHubPagesUrl` is non-null or was derived from an
observed URL, since the triggering URL may fail the `://sub.github.io`
parse. -/
theorem c2_theorem (urls : ExtractedUrls) :
    (detectGitHubUrls urls).hasGitHubPages = (urlValues urls).any pagesTrigger := by
  have h0 : truthyOpt (ScanState.mk none none false none).gitHubPagesUrl = true →
      (ScanState.mk none none false none).hasGitHubPages = true := by
    intro h
    simp [truthyOpt] at h
  calc (detectGitHubUrls urls).hasGitHubPages
      = ((urlValues urls).foldl scanUrl
          { userName := none, repositoryName := none,
            hasGitHubPages := false, gitHubPagesUrl := none }).hasGitHubPages := rfl
    _ = (false || (urlValues urls).any pagesTrigger) := foldl_scan_has _ _ h0
    _ = (urlValues urls).any pagesTrigger := Bool.false_or _

/-- Manifest with a homepage carrying both a `.git` suffix and a fragment. -/
def bothPackage : PackageJson :=
  { homepage := some (JsVal.vStr ("https://github.com/acme/widget.git#readme")) }

/-- Claim C3, counterexample: for homepage
`https://github.com/acme/widget.git#readme` the extractor removes only the
fragment (the first match of the non-global replacement) and keeps the
`.git` suffix, so the value does not end up with neither. -/
theorem c3_counterexample :
    findUrlsFromPackageJson bothPackage =
      Except.ok { homepage := some ("https://github.com/acme/widget.git"),
                  author := none, repository := none, bugs := none,
                  funding := none, gitRemoteUrl := none } ∧
    some ("https://github.com/acme/widget.git") ≠
      some (("https://github.com/acme/widget" : String)) :=
  ⟨rfl, by decide⟩

/-- Claim C3, amended: the normalisation removes only the leftmost match of
the pattern: on a line-terminator-free value it removes everything from the
first `#` onward when a `#` is present, otherwise a trailing `.git` when
present, otherwise nothing; a value carrying both keeps its `.git` suffix. -/
theorem c3_theorem (s : String) (h : ∀ c ∈ s.data, lineTerm c = false) :
    (stripFragGit s).data =
      if ('#') ∈ s.data then s.data.takeWhile (fun c => c != '#')
      else if ['.', 'g', 'i', 't'] <:+ s.data then s.data.take (s.data.length - 4)
      else s.data :=
  stripFragGit_first_only s.data h

/-- Witness for claim C3 at the value of the counterexample input. -/
theorem c3_witness :
    (∀ c ∈ ("https://github.com/acme/widget.git#readme").data, lineTerm c = false) ∧
    (stripFragGit ("https://github.com/acme/widget.git#readme")).data =
      (if ('#') ∈ ("https://github.com/acme/widget.git#readme").data then
        ("https://github.com/acme/widget.git#readme").data.takeWhile (fun c => c != '#')
      else if ['.', 'g', 'i', 't'] <:+ ("https://github.com/acme/widget.git#readme").data then
        ("https://github.com/acme/widget.git#readme").data.take
          (("https://github.com/acme/widget.git#readme").data.length - 4)
      else ("https://github.com/acme/widget.git#readme").data) :=
  ⟨by decide, c3_theorem ("https://github.com/acme/widget.git#readme") (by decide)⟩

/-- Manifest whose homepage is an object with a numeric `url` property. -/
def badUrlPackage : PackageJson :=
  { homepage := some (JsVal.vObj (some (JsVal.vNum 42))) }

/-- Claim C4: for the manifest with homepage `{url: 42}` the extractor calls
`.replace` on a number, which throws a TypeError that aborts the whole
extraction instead of yielding null for the field; the modelled extraction
returns the error value at this failing input. -/
theorem c4_theorem : findUrlsFromPackageJson badUrlPackage = Except.error () := rfl

/-- Manifest whose author is an object whose `url` string carries a
parenthesised URL. -/
def objAuthorPackage : PackageJson :=
  { author := some (JsVal.vObj (some (JsVal.vStr ("Jane Doe (https://jane.dev)")))) }

/-- Claim C5, counterexample: an author value taken from an object `url`
property is also subjected to the parenthesised-URL search; for
author `{url: "Jane Doe (https://jane.dev)"}` the extractor returns
`https://jane.dev` instead of keeping the object-sourced value as-is. -/
theorem c5_counterexample :
    findUrlsFromPackageJson objAuthorPackage =
      Except.ok { homepage := none, author := some ("https://jane.dev"),
                  repository := none, bugs := none, funding := none,
                  gitRemoteUrl := none } ∧
    some ("https://jane.dev") ≠ some (("Jane Doe (https://jane.dev)" : String)) :=
  ⟨rfl, by decide⟩

/-- Author supplied as an object with a string `url` property. -/
def authorObjPackage (s : String) : PackageJson :=
  { author := some (JsVal.vObj (some (JsVal.vStr s))) }

/-- Author supplied as a plain string. -/
def authorStrPackage (s : String) : PackageJson :=
  { author := some (JsVal.vStr s) }

/-- Claim C5, amended: the parenthesised-URL search is applied to the
normalised author value regardless of its source: an author given as an
object with url string `s` extracts exactly like an author given as the
plain string `s`. -/
theorem c5_theorem (s : String) :
    findUrlsFromPackageJson (authorObjPackage s)
      = findUrlsFromPackageJson (authorStrPackage s) := rfl

/-- Claim C6: for every input URL mapping the inference result satisfies the
asymmetry invariant: `gitHubRepositoryUrl` is non-null only if
`gitHubUserUrl` is non-null, and whenever `userName` is set while
`repositoryName` is not, `gitHubRepositoryUrl` is null while `gitHubUserUrl`
is `https://github.com/` followed by the user name. -/
theorem c6_theorem (urls : ExtractedUrls) :
    ((detectGitHubUrls urls).gitHubRepositoryUrl ≠ none →
      (detectGitHubUrls urls).gitHubUserUrl ≠ none) ∧
    (∀ u : String, (detectGitHubUrls urls).userName = some u →
      (detectGitHubUrls urls).repositoryName = none →
      (detectGitHubUrls urls).gitHubRepositoryUrl = none ∧
      (detectGitHubUrls urls).gitHubUserUrl = some ("https://github.com/" ++ u)) := by
  have hok : namesOk ((urlValues urls).foldl scanUrl
      { userName := none, repositoryName := none,
        hasGitHubPages := false, gitHubPagesUrl := none }) :=
    foldl_scan_namesOk _ _ ⟨by simp, by simp⟩
  simp only [detectGitHubUrls]
  generalize hst : (urlValues urls).foldl scanUrl
      { userName := none, repositoryName := none,
        hasGitHubPages := false, gitHubPagesUrl := none } = st
  rw [hst] at hok
  obtain ⟨hok1, hok2⟩ := hok
  constructor
  · intro hrepo
    cases hu : st.userName with
    | none =>
      cases hr : st.repositoryName with
      | none =>
        rw [hu, hr] at hrepo
        exact absurd rfl hrepo
      | some r =>
        rw [hu, hr] at hrepo
        exact absurd rfl hrepo
    | some u =>
      cases hr : st.repositoryName with
      | none =>
        rw [hu, hr] at hrepo
        exact absurd rfl hrepo
      | some r =>
        rw [hu, hr] at hrepo
        by_cases hue : u == ""
        · exfalso
          apply hrepo
          show (if (u == "" || r == "") = true then none
              else some ((("https://github.com/" ++ u) ++ "/") ++ r)) = none
          rw [if_pos (by simp [hue])]
        · show (if (u == "") = true then none
              else some ("https://github.com/" ++ u)) ≠ none
          rw [if_neg hue]
          simp
  · intro u hu hr
    have hne : ¬(u == "") = true := by
      intro habs
      apply hok1
      rw [hu]
      simp at habs
      rw [habs]
    rw [hu, hr]
    refine ⟨rfl, ?_⟩
    show (if (u == "") = true then none
        else some ("https://github.com/" ++ u)) = some ("https://github.com/" ++ u)
    rw [if_neg hne]

/-- URL mapping whose only entry names a GitHub user but no repository. -/
def comUserUrls : ExtractedUrls :=
  { homepage := some ("https://github.com/acme"), author := none,
    repository := none, bugs := none, funding := none, gitRemoteUrl := none }

/-- URL mapping whose only entry names a GitHub user and repository. -/
def comRepoUrls : ExtractedUrls :=
  { homepage := some ("https://github.com/acme/widget"), author := none,
    repository := none, bugs := none, funding := none, gitRemoteUrl := none }

/-- Witness for claim C6: both conjuncts applied at concrete mappings, one
with a full repository URL and one with a user-only URL. -/
theorem c6_witness :
    ((detectGitHubUrls comRepoUrls).gitHubUserUrl ≠ none) ∧
    ((detectGitHubUrls comUserUrls).gitHubRepositoryUrl = none ∧
     (detectGitHubUrls comUserUrls).gitHubUserUrl =
       some ("https://github.com/" ++ "acme")) :=
  ⟨(c6_theorem comRepoUrls).1 (by decide),
   (c6_theorem comUserUrls).2 ("acme") rfl rfl⟩

/-- The all-null extraction record. -/
def emptyUrls : ExtractedUrls :=
  { homepage := none, author := none, repository := none, bugs := none,
    funding := none, gitRemoteUrl := none }

/-- Claim C7: when all five known fields are absent, extraction yields the
all-null record, and the choice list built from it with no remote URL is
empty, with no cancel entry. -/
theorem c7_theorem (p : PackageJson) (h1 : p.homepage = none) (h2 : p.author = none)
    (h3 : p.repository = none) (h4 : p.bugs = none) (h5 : p.funding = none) :
    findUrlsFromPackageJson p = Except.ok emptyUrls ∧
    makeChoices emptyUrls (detectGitHubUrls emptyUrls) = [] := by
  obtain ⟨f1, f2, f3, f4, f5⟩ := p
  dsimp only at h1 h2 h3 h4 h5
  subst h1 h2 h3 h4 h5
  exact ⟨rfl, rfl⟩

/-- Witness for claim C7 at the empty manifest. -/
theorem c7_witness :
    findUrlsFromPackageJson {} = Except.ok emptyUrls ∧
    makeChoices emptyUrls (detectGitHubUrls emptyUrls) = [] :=
  c7_theorem {} rfl rfl rfl rfl rfl

/-- URL mapping whose repository entry is the empty string, reachable from
the manifest value `repository: "git+"`. -/
def emptyRepoUrls : ExtractedUrls :=
  { homepage := none, author := none, repository := some (""), bugs := none,
    funding := none, gitRemoteUrl := none }

/-- The all-null inference record. -/
def nullInference : GitHubUrlInference :=
  { userName := none, repositoryName := none, gitHubUserUrl := none,
    gitHubRepositoryUrl := none, hasGitHubPages := false, gitHubPagesUrl := none }

/-- Claim C8, counterexample: a non-null but empty extracted URL produces no
entry at all, so the list for a mapping whose only non-null field is the
empty repository string is empty rather than containing that entry and a
cancel entry. -/
theorem c8_counterexample :
    emptyRepoUrls.repository ≠ none ∧
    makeChoices emptyRepoUrls nullInference = [] :=
  ⟨by decide, rfl⟩

/-- Claim C8, amended: the choice list is ordered as the inferred repository,
user and Pages URLs when present and non-empty (the Pages label containing
`(Maybe Not Found)` exactly when `hasGitHubPages` is false), then each
non-null, non-empty extracted URL in field-iteration order (the git remote
URL labelled differently), then a cancel entry appended only when a prior
entry exists, every label numbered by its final 1-indexed position: the
builder agrees with this specification on every input. -/
theorem c8_theorem (urls : ExtractedUrls) (g : GitHubUrlInference) :
    makeChoices urls g = makeChoicesSpec urls g := by
  simp only [makeChoices, makeChoicesSpec, specItems]
  rw [pushRepo_base, numberFrom_push, numberFrom_push, numberFrom_foldl, cancel_step]

/-- Claim C9: extraction and inference are deterministic: equal manifest
mappings extract equally and equal URL records infer equally. -/
theorem c9_theorem (p q : PackageJson) (r s : ExtractedUrls)
    (hpq : p = q) (hrs : r = s) :
    findUrlsFromPackageJson p = findUrlsFromPackageJson q ∧
    detectGitHubUrls r = detectGitHubUrls s :=
  ⟨congrArg findUrlsFromPackageJson hpq, congrArg detectGitHubUrls hrs⟩

/-- Witness for claim C9 at the C1 inputs. -/
theorem c9_witness :
    findUrlsFromPackageJson pagesPackage = findUrlsFromPackageJson pagesPackage ∧
    detectGitHubUrls pagesUrls = detectGitHubUrls pagesUrls :=
  c9_theorem pagesPackage pagesPackage pagesUrls pagesUrls rfl rfl

/-- URL mapping in which the user name comes from the homepage URL and the
repository name from a later repository URL. -/
def crossUrls : ExtractedUrls :=
  { homepage := some ("https://github.com/acme"), author := none,
    repository := some ("https://github.com/other/widget"), bugs := none,
    funding := none, gitRemoteUrl := none }

/-- Claim C10: the `github.com` matches are independent across URLs: in the
`crossUrls` mapping `userName` is taken from the homepage and
`repositoryName` from the later repository URL, so the derived
`gitHubRepositoryUrl` combines segments that co-occur in no single input URL
(the homepage does not contain `widget`, the repository URL does not contain
`acme`). -/
theorem c10_theorem :
    (detectGitHubUrls crossUrls).userName = some ("acme") ∧
    (detectGitHubUrls crossUrls).repositoryName = some ("widget") ∧
    (detectGitHubUrls crossUrls).gitHubRepositoryUrl =
      some ("https://github.com/acme/widget") ∧
    jsIncludes ("https://github.com/acme") ("widget") = false ∧
    jsIncludes ("https://github.com/other/widget") ("acme") = false :=
  ⟨rfl, rfl, rfl, by decide, by decide⟩
